import Mathlib

/-!
# Verification of the NIST STS core against its specification

The repository ships the C declaration surface of the library (`sts-lib.h`,
`header.h`); the bodies of the bit-sequence type, the test kernels and the
runner live behind that surface.  The definitions below therefore model those
operations from the specification and from the behaviour documented on the
declarations, and the theorems settle the frozen claims against this model.
-/

namespace STS

/-- Modelled from the spec: `BitVec` (the `BitSequence` abstraction, §3/§4.1),
whose packed-byte body is not part of the shipped sources.  A sequence is a
logical length together with the underlying bit store; `crop` only adjusts the
logical length, so the store is kept whole. -/
structure BitVec where
  len : ℕ
  bitf : ℕ → Bool

/-- `bit(i)`: indexed bit access; out-of-range reads are masked to `false`
(the contract only allows `0 ≤ i < n`). -/
def BitVec.bit (v : BitVec) (i : ℕ) : Bool :=
  if i < v.len then v.bitf i else false

/-- Modelled from the spec: `bitvec_crop` — iff `new_bit_len < n` the sequence
is logically shortened to its first `new_bit_len` bits; larger values do
nothing (doc on `bitvec_crop` in `sts-lib.h`). -/
def bitvec_crop (v : BitVec) (new_bit_len : ℕ) : BitVec :=
  if new_bit_len < v.len then ⟨new_bit_len, v.bitf⟩ else v

/-- Modelled from the spec: `bitvec_from_bytes` — byte `b` contributes bits
`b>>7, b>>6, …, b&1` in MSB-first order (§3, constructor (b)). -/
def bitvec_from_bytes (bs : List ℕ) : BitVec :=
  ⟨8 * bs.length, fun i => (bs.getD (i / 8) 0) / 2 ^ (7 - i % 8) % 2 == 1⟩

/-- Modelled from the spec: `bitvec_from_bits` — a boolean array, one bool per
bit (§3, constructor (c)). -/
def bitvec_from_bits (bits : List Bool) : BitVec :=
  ⟨bits.length, fun i => bits.getD i false⟩

/-- Claim C8: `crop(k)` with `k ≥ n` leaves the sequence unchanged; with `k < n` it
shortens to the first `k` bits, preserving every bit below `k`; and a sequence
built from a byte array `B` cropped to `8·len(B)` bits equals the uncropped
sequence. -/
theorem crop_spec (v : BitVec) (k : ℕ) :
    (v.len ≤ k → bitvec_crop v k = v) ∧
    (k < v.len → (bitvec_crop v k).len = k ∧
      ∀ i < k, (bitvec_crop v k).bit i = v.bit i) ∧
    (∀ bs : List ℕ,
      bitvec_crop (bitvec_from_bytes bs) (8 * bs.length) = bitvec_from_bytes bs) := by
  refine ⟨fun h => ?_, fun h => ⟨?_, fun i hi => ?_⟩, fun bs => ?_⟩
  · simp only [bitvec_crop, if_neg (not_lt.mpr h)]
  · simp only [bitvec_crop, if_pos h]
  · simp only [bitvec_crop, if_pos h, BitVec.bit]
    rw [if_pos hi, if_pos (lt_trans hi h)]
  · simp only [bitvec_crop, bitvec_from_bytes, lt_irrefl, if_false]

/-- Claim C8 witness: concrete instances of all three clauses at the byte array
`[0xAB]` (bits `10101011`). -/
theorem crop_spec_witness :
    bitvec_crop (bitvec_from_bytes [171]) 8 = bitvec_from_bytes [171] ∧
    (3 < (bitvec_from_bytes [171]).len ∧
      (bitvec_crop (bitvec_from_bytes [171]) 3).len = 3 ∧
      (bitvec_crop (bitvec_from_bytes [171]) 3).bit 2 = (bitvec_from_bytes [171]).bit 2) ∧
    bitvec_crop (bitvec_from_bytes [171]) (8 * [171].length) = bitvec_from_bytes [171] := by
  refine ⟨(crop_spec (bitvec_from_bytes [171]) 8).1 (by decide), ⟨by decide, ?_, ?_⟩, ?_⟩
  · exact ((crop_spec (bitvec_from_bytes [171]) 3).2.1 (by decide)).1
  · exact ((crop_spec (bitvec_from_bytes [171]) 3).2.1 (by decide)).2 2 (by decide)
  · exact (crop_spec (bitvec_from_bytes [171]) 0).2.2 [171]

/-- The error codes of the thread-local error channel (`ErrorCode` enum in
`sts-lib.h`). -/
inductive ErrorCode where
  | NoError
  | Overflow
  | NaN
  | Infinite
  | GammaFunctionFailed
  | InvalidParameter
  | SetMaxThreads
  | InvalidTest
  | DuplicateTest
  | TestFailed
  | TestWasNotRun
deriving DecidableEq, Repr

/-- The result of a statistical test: a p-value and an optional comment
(`TestResult`, §3). -/
structure TestResult where
  p_value : ℝ
  comment : Option String

/-- Modelled from the spec: `erfc` (§4.2); the external special-function
library is not part of the shipped sources, so the mathematical function
`erfc x = (2/√π)·∫ₓ^∞ e^(−t²) dt` is used. -/
noncomputable def erfc (x : ℝ) : ℝ :=
  2 / Real.sqrt Real.pi * ∫ t in Set.Ioi x, Real.exp (-t ^ 2)

/-- Modelled from the spec: `igamc a x = Q(a,x) = Γ(a,x)/Γ(a)`, the
regularized upper incomplete gamma function (§4.2), whose implementation is
not part of the shipped sources. -/
noncomputable def igamc (a x : ℝ) : ℝ :=
  (∫ t in Set.Ioi x, Real.exp (-t) * t ^ (a - 1)) / Real.Gamma a

/-- The argument of the Frequency test within a block: a manually chosen block
length (`TestArgFrequencyBlock`). -/
structure TestArgFrequencyBlock where
  block_length : ℕ

/-- Modelled from the spec: `test_arg_frequency_block_new` — returns `NULL`
iff the given block length is `0` (doc in `sts-lib.h`). -/
def test_arg_frequency_block_new (block_length : ℕ) : Option TestArgFrequencyBlock :=
  if block_length = 0 then none else some ⟨block_length⟩

/-- Claim C9: the Frequency-Block argument constructor rejects exactly the block
length `0` and accepts every block length `≥ 1` — including values that
violate the NIST recommendations (at least 20 bits, more than `n/100`, fewer
than 100 blocks), which constrain only the automatic default choice — and the
accepted argument carries the supplied value. -/
theorem frequency_block_arg_spec (block_length : ℕ) :
    (test_arg_frequency_block_new block_length = none ↔ block_length = 0) ∧
    (1 ≤ block_length →
      test_arg_frequency_block_new block_length = some ⟨block_length⟩) := by
  constructor
  · unfold test_arg_frequency_block_new
    split <;> simp_all
  · intro h
    unfold test_arg_frequency_block_new
    rw [if_neg (by omega)]

/-- Claim C9 witness: block length `1` — far below the recommended 20 bits — is
accepted, and block length `0` is rejected. -/
theorem frequency_block_arg_spec_witness :
    test_arg_frequency_block_new 1 = some ⟨1⟩ ∧
    test_arg_frequency_block_new 0 = none := by
  exact ⟨(frequency_block_arg_spec 1).2 (by decide),
    (frequency_block_arg_spec 0).1.mpr rfl⟩

/-- The arguments of the Overlapping Template Matching test: template length
`m`, block length `M`, degrees of freedom `K`, and the flag selecting the
legacy NIST behaviour (`TestArgOverlappingTemplate`). -/
structure TestArgOverlappingTemplate where
  m : ℕ
  big_m : ℕ
  k : ℕ
  nist_behaviour : Bool

/-- Modelled from the spec: `test_arg_overlapping_template_new` — all of
`2 ≤ m ≤ 21` must hold (doc on `TestArgOverlappingTemplate`); the produced
argument uses the corrected Hamano–Kaneko π values. -/
def test_arg_overlapping_template_new (m big_m k : ℕ) :
    Option TestArgOverlappingTemplate :=
  if 2 ≤ m ∧ m ≤ 21 then some ⟨m, big_m, k, false⟩ else none

/-- Modelled from the spec: `test_arg_overlapping_template_new_nist_behaviour`
— the template length may be either 9 or 10 (doc in `sts-lib.h`); `K` is
forced to 5 and the default block length 1032 is kept (§4.3, legacy mode). -/
def test_arg_overlapping_template_new_nist_behaviour (m : ℕ) :
    Option TestArgOverlappingTemplate :=
  if m = 9 ∨ m = 10 then some ⟨m, 1032, 5, true⟩ else none

/-- The fixed five-element π vector of the NIST reference implementation
(§4.3, legacy NIST mode). -/
noncomputable def legacyNistPi : List ℝ :=
  [0.367879, 0.183940, 0.137955, 0.099634, 0.210507]

/-- Modelled from the spec: the π vector the Overlapping Template kernel uses.
The corrected Hamano–Kaneko computation is only sketched by the spec (η =
`M/(2^m·2)` and a series of confluent hypergeometric terms), so it is taken as
a parameter `corrected`; in legacy NIST mode the fixed vector `legacyNistPi`
is used regardless of `M`, `K` and of `corrected` (§4.3). -/
noncomputable def overlappingPiSelect (arg : TestArgOverlappingTemplate)
    (corrected : ℕ → ℕ → ℕ → List ℝ) : List ℝ :=
  if arg.nist_behaviour then legacyNistPi else corrected arg.m arg.big_m arg.k

/-- Claim C7: the legacy-NIST Overlapping Template argument constructor succeeds iff
the template length is 9 or 10, and any argument it produces has `K` forced to
5 and makes the kernel use the fixed NIST five-element π vector regardless of
`M`, `K` and of the corrected-mode computation. -/
theorem overlapping_template_nist_arg_spec (m : ℕ) :
    ((test_arg_overlapping_template_new_nist_behaviour m).isSome ↔
      m = 9 ∨ m = 10) ∧
    (∀ arg, test_arg_overlapping_template_new_nist_behaviour m = some arg →
      arg.k = 5 ∧ ∀ corrected : ℕ → ℕ → ℕ → List ℝ,
        overlappingPiSelect arg corrected = legacyNistPi) := by
  constructor
  · unfold test_arg_overlapping_template_new_nist_behaviour
    split <;> simp_all
  · intro arg harg
    unfold test_arg_overlapping_template_new_nist_behaviour at harg
    split at harg
    · cases harg
      exact ⟨rfl, fun corrected => by
        simp [overlappingPiSelect]⟩
    · cases harg

/-- Claim C7 witness: at `m = 9` the constructor succeeds and forces `K = 5` and
the fixed π vector (here against the corrected computation that would return
the empty list); at `m = 8` it fails. -/
theorem overlapping_template_nist_arg_spec_witness :
    (test_arg_overlapping_template_new_nist_behaviour 9).isSome ∧
    ((⟨9, 1032, 5, true⟩ : TestArgOverlappingTemplate).k = 5 ∧
      ∀ corrected : ℕ → ℕ → ℕ → List ℝ,
        overlappingPiSelect ⟨9, 1032, 5, true⟩ corrected = legacyNistPi) ∧
    ¬(test_arg_overlapping_template_new_nist_behaviour 8).isSome := by
  refine ⟨(overlapping_template_nist_arg_spec 9).1.mpr (Or.inl rfl),
    (overlapping_template_nist_arg_spec 9).2 ⟨9, 1032, 5, true⟩ rfl, ?_⟩
  intro h
  exact absurd ((overlapping_template_nist_arg_spec 8).1.mp h) (by decide)

/-- GF(2) polynomial sum `c + x^m·b`, used by the Berlekamp–Massey update. -/
def polyAddShift (c b : List Bool) (m : ℕ) : List Bool :=
  (List.range (max c.length (m + b.length))).map fun i =>
    xor (c.getD i false) (if m ≤ i then b.getD (i - m) false else false)

/-- The Berlekamp–Massey iteration state: current and previous connection
polynomials, current LFSR length, and steps since the last length change. -/
structure BMState where
  c : List Bool
  b : List Bool
  big_l : ℕ
  m : ℕ

/-- One Berlekamp–Massey step on bit `n` of the sequence `s`. -/
def bmStep (s : List Bool) (st : BMState) (n : ℕ) : BMState :=
  let d := (List.range (st.big_l + 1)).foldl
    (fun acc i => xor acc (st.c.getD i false && s.getD (n - i) false)) false
  if d then
    if 2 * st.big_l ≤ n then
      ⟨polyAddShift st.c st.b st.m, st.c, n + 1 - st.big_l, 1⟩
    else
      ⟨polyAddShift st.c st.b st.m, st.b, st.big_l, st.m + 1⟩
  else
    ⟨st.c, st.b, st.big_l, st.m + 1⟩

/-- Modelled from the spec: `berlekamp_massey` (§4.2) — the length of the
minimal LFSR over GF(2) producing the finite sequence, whose implementation is
not part of the shipped sources. -/
def berlekamp_massey (s : List Bool) : ℕ :=
  ((List.range s.length).foldl (bmStep s) ⟨[true], [true], 0, 1⟩).big_l

/-- The argument of the Linear Complexity test: a manually chosen block length
(`TestArgLinearComplexity`). -/
structure TestArgLinearComplexity where
  block_length : ℕ

/-- Modelled from the spec: `test_arg_linear_complexity_new` — returns the
argument iff `500 ≤ block_length ≤ 5000` (doc in `sts-lib.h`); the constraint
`n/M ≥ 200` involves the sequence and is checked at dispatch time (§6). -/
def test_arg_linear_complexity_new (block_length : ℕ) : Option TestArgLinearComplexity :=
  if 500 ≤ block_length ∧ block_length ≤ 5000 then some ⟨block_length⟩ else none

/-- Block `i` of length `M` of the sequence, as a bit list. -/
def blockBits (v : BitVec) (big_m i : ℕ) : List Bool :=
  (List.range big_m).map fun j => v.bit (i * big_m + j)

/-- The fixed category probabilities of the Linear Complexity test (§4.3). -/
noncomputable def linearComplexityPi : List ℝ :=
  [0.010417, 0.031250, 0.125000, 0.500000, 0.250000, 0.062500, 0.020833]

/-- The canonical bucket boundaries `[−∞,−2.5,−1.5,−0.5,0.5,1.5,2.5,+∞]`
of the Linear Complexity test: whether `t` falls into bucket `j`. -/
noncomputable def lcBucket (t : ℝ) (j : ℕ) : Prop :=
  (j = 0 → t ≤ -2.5) ∧
  (j = 1 → -2.5 < t ∧ t ≤ -1.5) ∧
  (j = 2 → -1.5 < t ∧ t ≤ -0.5) ∧
  (j = 3 → -0.5 < t ∧ t ≤ 0.5) ∧
  (j = 4 → 0.5 < t ∧ t ≤ 1.5) ∧
  (j = 5 → 1.5 < t ∧ t ≤ 2.5) ∧
  (j = 6 → 2.5 < t)

/-- Modelled from the spec: the per-block statistic `T_i` of the Linear
Complexity test — `T_i = (−1)^M·(L_i − μ) + 2/9` with
`μ = M/2 + (9 + (−1)^(M+1))/36 − (M/3 + 2/9)/2^M` (§4.3). -/
noncomputable def lcStatisticT (v : BitVec) (big_m i : ℕ) : ℝ :=
  let mu : ℝ := big_m / 2 + (9 + (-1 : ℝ) ^ (big_m + 1)) / 36 -
    ((big_m : ℝ) / 3 + 2 / 9) / 2 ^ big_m
  (-1 : ℝ) ^ big_m * ((berlekamp_massey (blockBits v big_m i) : ℝ) - mu) + 2 / 9

/-- Modelled from the spec: the χ² statistic of the Linear Complexity test
over `N = ⌊n/M⌋` blocks (§4.3). -/
noncomputable def linearComplexityChiSq (v : BitVec) (big_m : ℕ) : ℝ :=
  let n_blocks := v.len / big_m
  ∑ j ∈ Finset.range 7,
    let nu : ℝ := (@Finset.filter _ (fun i => lcBucket (lcStatisticT v big_m i) j)
      (fun _ => Classical.propDecidable _) (Finset.range n_blocks)).card
    let pij := linearComplexityPi.getD j 0
    (nu - n_blocks * pij) ^ 2 / (n_blocks * pij)

/-- Modelled from the spec: `linear_complexity_test` — requires `n ≥ 10⁶`
(§6) and the run-time constraint `n/M ≥ 200` (§3); on violation the kernel
fails with no result; otherwise `p = igamc(3, χ²/2)` (§4.3). -/
noncomputable def linear_complexity_test (v : BitVec) (arg : TestArgLinearComplexity) :
    Option TestResult :=
  if v.len < 10 ^ 6 then none
  else if v.len / arg.block_length < 200 then none
  else some ⟨igamc 3 (linearComplexityChiSq v arg.block_length / 2), none⟩

/-- Claim C10: the Linear Complexity argument constructor validates only the static
range `500 ≤ M ≤ 5000`; it cannot see the sequence, and a `(sequence,
argument)` pair violating `n/M ≥ 200` is rejected only when the kernel is
executed, via an error with no result. -/
theorem linear_complexity_arg_spec (big_m : ℕ) :
    ((test_arg_linear_complexity_new big_m).isSome ↔ 500 ≤ big_m ∧ big_m ≤ 5000) ∧
    (∀ arg, test_arg_linear_complexity_new big_m = some arg →
      arg.block_length = big_m ∧
      ∀ v : BitVec, v.len / big_m < 200 → linear_complexity_test v arg = none) := by
  constructor
  · unfold test_arg_linear_complexity_new
    split <;> simp_all
  · intro arg harg
    unfold test_arg_linear_complexity_new at harg
    split at harg
    · cases harg
      refine ⟨rfl, fun v hv => ?_⟩
      unfold linear_complexity_test
      rcases lt_or_le v.len (10 ^ 6) with h | h
      · rw [if_pos h]
      · rw [if_neg (not_lt.mpr h), if_pos hv]
    · cases harg

/-- Claim C10 witness: `M = 500` is accepted, `M = 499` is not, and a 99 999-bit
sequence (ratio `99999/500 = 199 < 200`) is rejected by the kernel with no
result. -/
theorem linear_complexity_arg_spec_witness :
    (test_arg_linear_complexity_new 500).isSome ∧
    ¬(test_arg_linear_complexity_new 499).isSome ∧
    ((⟨99999, fun _ => false⟩ : BitVec).len / 500 < 200 ∧
      linear_complexity_test ⟨99999, fun _ => false⟩ ⟨500⟩ = none) := by
  refine ⟨(linear_complexity_arg_spec 500).1.mpr (by decide), ?_, by decide,
    ((linear_complexity_arg_spec 500).2 ⟨500⟩ rfl).2 ⟨99999, fun _ => false⟩ (by decide)⟩
  intro h
  have := (linear_complexity_arg_spec 499).1.mp h
  omega

/-- The number of ones in the sequence. -/
def onesCount (v : BitVec) : ℕ :=
  ((Finset.range v.len).filter fun i => v.bit i).card

/-- The ones-proportion estimator `π = (#ones)/n` of the Runs test (§4.3). -/
noncomputable def piEst (v : BitVec) : ℝ :=
  (onesCount v : ℝ) / v.len

/-- The total number of runs `V_n = 1 + #{i : bit_i ≠ bit_(i+1)}` (§4.3). -/
def runsVn (v : BitVec) : ℕ :=
  1 + ((Finset.range (v.len - 1)).filter fun i => v.bit i ≠ v.bit (i + 1)).card

/-- Modelled from the spec: `runs_test` (§4.3) — if `|π − 0.5| ≥ 2/√n` the
call still succeeds, with `p = 0` and the comment `"pi estimator failed"`;
otherwise `p = erfc(|V_n − 2nπ(1−π)| / (2√(2n)·π(1−π)))`. -/
noncomputable def runs_test (v : BitVec) : Option TestResult :=
  some <|
    if 2 / Real.sqrt v.len ≤ |piEst v - 1 / 2| then
      ⟨0, some "pi estimator failed"⟩
    else
      ⟨erfc (|(runsVn v : ℝ) - 2 * v.len * piEst v * (1 - piEst v)| /
        (2 * Real.sqrt (2 * v.len) * piEst v * (1 - piEst v))), none⟩

/-- Claim C4: the Runs kernel always succeeds; whenever `|π − 0.5| ≥ 2/√n` it
returns `p = 0` with the comment `"pi estimator failed"`, and otherwise it
returns `p = erfc(|V_n − 2nπ(1−π)| / (2√(2n)·π(1−π)))` with
`V_n = 1 + #{i : bit_i ≠ bit_(i+1)}`. -/
theorem runs_kernel_spec (v : BitVec) :
    (2 / Real.sqrt v.len ≤ |piEst v - 1 / 2| →
      runs_test v = some ⟨0, some "pi estimator failed"⟩) ∧
    (|piEst v - 1 / 2| < 2 / Real.sqrt v.len →
      runs_test v = some ⟨erfc (|(runsVn v : ℝ) - 2 * v.len * piEst v * (1 - piEst v)| /
        (2 * Real.sqrt (2 * v.len) * piEst v * (1 - piEst v))), none⟩) := by
  constructor
  · intro h
    unfold runs_test
    rw [if_pos h]
  · intro h
    unfold runs_test
    rw [if_neg (not_le.mpr h)]

/-- Claim C4 witness: the all-ones 100-bit sequence has `π = 1`, so the pi-estimator
policy fires: the call succeeds with `p = 0` and the explanatory comment. -/
theorem runs_kernel_spec_witness :
    runs_test ⟨100, fun _ => true⟩ = some ⟨0, some "pi estimator failed"⟩ := by
  apply (runs_kernel_spec ⟨100, fun _ => true⟩).1
  have hones : onesCount ⟨100, fun _ => true⟩ = 100 := by decide
  have hpi : piEst ⟨100, fun _ => true⟩ = 1 := by
    unfold piEst
    rw [hones]
    norm_num
  have hsqrt : Real.sqrt (100 : ℝ) = 10 := by
    rw [show (100 : ℝ) = 10 ^ 2 by norm_num]
    exact Real.sqrt_sq (by norm_num)
  rw [hpi]
  show 2 / Real.sqrt ((100 : ℕ) : ℝ) ≤ |1 - 1 / 2|
  rw [Nat.cast_ofNat, hsqrt, show |(1 : ℝ) - 1 / 2| = 1 / 2 by
    rw [abs_of_nonneg] <;> norm_num]
  norm_num

/-- The argument of the Serial test: a validated block length
(`TestArgSerial`). -/
structure TestArgSerial where
  block_length : ℕ

/-- Modelled from the spec: `test_arg_serial_new` — the block length must be
at least 2 (constraint 1 on `TestArgSerial`; constraint 3 is checked when the
test executes). -/
def test_arg_serial_new (block_length : ℕ) : Option TestArgSerial :=
  if 2 ≤ block_length then some ⟨block_length⟩ else none

/-- The `k`-bit pattern with value `m`, most significant bit first. -/
def natToBits (k m : ℕ) : List Bool :=
  (List.range k).map fun j => m / 2 ^ (k - 1 - j) % 2 == 1

/-- The number of positions at which the pattern `w` occurs in the sequence,
treating the sequence as circular (§4.3, Serial). -/
def patternCount (v : BitVec) (w : List Bool) : ℕ :=
  ((Finset.range v.len).filter fun i =>
    ∀ j ∈ Finset.range w.length, v.bit ((i + j) % v.len) = w.getD j false).card

/-- Modelled from the spec: `ψ²_k = (2^k/n)·Σ v² − n`, the sum running over
the circular frequencies of all `2^k` patterns of length `k` (§4.3, Serial). -/
noncomputable def psiSq (v : BitVec) (k : ℕ) : ℝ :=
  2 ^ k / (v.len : ℝ) *
    (∑ m ∈ Finset.range (2 ^ k), (patternCount v (natToBits k m) : ℝ) ^ 2) - v.len

/-- Modelled from the spec: `serial_test` (§4.3) — checks the run-time
constraint `M < ⌊log₂ n⌋ − 2` and emits two results,
`p₁ = igamc(2^(M−2), ∇ψ²/2)` and `p₂ = igamc(2^(M−3), ∇²ψ²/2)`, with the
second `igamc` argument halved relative to the literal NIST SP 800-22 text. -/
noncomputable def serial_test (v : BitVec) (arg : TestArgSerial) :
    Option (List TestResult) :=
  let m := arg.block_length
  if m < Nat.log2 v.len - 2 then
    some [⟨igamc ((2 : ℝ) ^ ((m : ℤ) - 2)) ((psiSq v m - psiSq v (m - 1)) / 2), none⟩,
          ⟨igamc ((2 : ℝ) ^ ((m : ℤ) - 3))
            ((psiSq v m - 2 * psiSq v (m - 1) + psiSq v (m - 2)) / 2), none⟩]
  else none

/-- Claim C2: for every sequence and every validated Serial argument `M` with
`2 ≤ M` and `M < ⌊log₂ n⌋ − 2`, the Serial kernel returns exactly the two
results `[∇ψ², ∇²ψ²]` in this order, computed as `p₁ = igamc(2^(M−2), ∇ψ²/2)`
and `p₂ = igamc(2^(M−3), ∇²ψ²/2)` — the second argument of `igamc` halved
relative to the literal NIST SP 800-22 text. -/
theorem serial_kernel_spec (v : BitVec) (big_m : ℕ) (h2 : 2 ≤ big_m)
    (h3 : big_m < Nat.log2 v.len - 2) :
    test_arg_serial_new big_m = some ⟨big_m⟩ ∧
    serial_test v ⟨big_m⟩ = some
      [⟨igamc ((2 : ℝ) ^ ((big_m : ℤ) - 2))
          ((psiSq v big_m - psiSq v (big_m - 1)) / 2), none⟩,
       ⟨igamc ((2 : ℝ) ^ ((big_m : ℤ) - 3))
          ((psiSq v big_m - 2 * psiSq v (big_m - 1) + psiSq v (big_m - 2)) / 2),
        none⟩] := by
  constructor
  · unfold test_arg_serial_new
    rw [if_pos h2]
  · unfold serial_test
    rw [if_pos h3]

/-- Claim C2 witness: a 64-bit sequence with `M = 3` (`⌊log₂ 64⌋ − 2 = 4 > 3`). -/
theorem serial_kernel_spec_witness :
    2 ≤ 3 ∧ 3 < Nat.log2 (⟨64, fun _ => false⟩ : BitVec).len - 2 ∧
    serial_test ⟨64, fun _ => false⟩ ⟨3⟩ = some
      [⟨igamc ((2 : ℝ) ^ ((3 : ℤ) - 2)) ((psiSq ⟨64, fun _ => false⟩ 3 -
          psiSq ⟨64, fun _ => false⟩ 2) / 2), none⟩,
       ⟨igamc ((2 : ℝ) ^ ((3 : ℤ) - 3)) ((psiSq ⟨64, fun _ => false⟩ 3 -
          2 * psiSq ⟨64, fun _ => false⟩ 2 + psiSq ⟨64, fun _ => false⟩ 1) / 2),
        none⟩] := by
  have hlog : Nat.log2 (⟨64, fun _ => false⟩ : BitVec).len - 2 = 4 := by
    show Nat.log2 64 - 2 = 4
    rw [Nat.log2_eq_log_two,
      Nat.log_eq_of_pow_le_of_lt_pow (show 2 ^ 6 ≤ 64 by norm_num) (by norm_num)]
  exact ⟨by decide, by rw [hlog]; decide,
    (serial_kernel_spec ⟨64, fun _ => false⟩ 3 (by decide) (by rw [hlog]; decide)).2⟩

/-- The cumulative-sum walk of the ±1-adjusted sequence:
`S_0 = 0`, `S_(k+1) = S_k ± 1` (§4.3, Random Excursions). -/
def walkS (v : BitVec) : ℕ → ℤ
  | 0 => 0
  | k + 1 => walkS v k + (if v.bit k then 1 else -1)

/-- The number of interior zeros of the walk (positions `1 ≤ k ≤ n` with
`S_k = 0`), each of which terminates a cycle. -/
def zeroCrossings (v : BitVec) : ℕ :=
  ((Finset.range v.len).filter fun k => walkS v (k + 1) = 0).card

/-- Modelled from the spec: the cycle count `J` — one cycle per interior zero
of the walk, plus the final partial cycle terminated at the very end when the
walk does not end at zero (§4.3/glossary, Random Excursions). -/
def cycleCount (v : BitVec) : ℕ :=
  zeroCrossings v + (if walkS v v.len = 0 then 0 else 1)

/-- The cycle boundaries: the starting zero, every interior zero position, and
the end of the walk when it is not itself a zero. -/
def cycleBoundaries (v : BitVec) : List ℕ :=
  0 :: (((List.range v.len).filter fun k => walkS v (k + 1) = 0).map (· + 1) ++
    (if walkS v v.len = 0 then [] else [v.len]))

/-- The cycles, as pairs of consecutive boundaries. -/
def cyclePairs (v : BitVec) : List (ℕ × ℕ) :=
  (cycleBoundaries v).zip (cycleBoundaries v).tail

/-- The number of visits of the walk to the state `x` within one cycle. -/
def cycleVisits (v : BitVec) (x : ℤ) (c : ℕ × ℕ) : ℕ :=
  ((Finset.Ioc c.1 c.2).filter fun k => walkS v k = x).card

/-- The visit-count buckets `{0,1,2,3,4,≥5}`: the number of cycles whose
visit count to `x` falls into bucket `k` (§4.3, Random Excursions). -/
def reNu (v : BitVec) (x : ℤ) (k : ℕ) : ℕ :=
  if k < 5 then (cyclePairs v).countP fun c => cycleVisits v x c == k
  else (cyclePairs v).countP fun c => 5 ≤ cycleVisits v x c

/-- Modelled from the spec: the NIST probability matrix `π_(|x|,k)` of the
Random Excursions test, via its standard closed form. -/
noncomputable def rePi (x : ℤ) (k : ℕ) : ℝ :=
  let a : ℝ := (x.natAbs : ℝ)
  if k = 0 then 1 - 1 / (2 * a)
  else if k ≤ 4 then 1 / (4 * a ^ 2) * (1 - 1 / (2 * a)) ^ (k - 1)
  else 1 / (2 * a) * (1 - 1 / (2 * a)) ^ 4

/-- The χ² statistic of the Random Excursions test for state `x` (§4.3). -/
noncomputable def reChiSq (v : BitVec) (x : ℤ) : ℝ :=
  ∑ k ∈ Finset.range 6,
    ((reNu v x k : ℝ) - cycleCount v * rePi x k) ^ 2 / (cycleCount v * rePi x k)

/-- The fixed state order of the Random Excursions test (§6). -/
def reStates : List ℤ := [-4, -3, -2, -1, 1, 2, 3, 4]

/-- Modelled from the spec: `random_excursions_test` (§4.3) — requires
`n ≥ 10⁶`; if the cycle count satisfies `J < max(0.005·√n, 500)` the call
still succeeds and emits 8 results with `p = 0` and a comment recording the
insufficient cycles; otherwise `p_x = igamc(5/2, χ²/2)` per state, in the
order `[-4,…,-1,+1,…,+4]`. -/
noncomputable def random_excursions_test (v : BitVec) : Option (List TestResult) :=
  if v.len < 10 ^ 6 then none
  else if (cycleCount v : ℝ) < max (0.005 * Real.sqrt v.len) 500 then
    some (reStates.map fun x =>
      ⟨0, some ("x = " ++ toString x ++ "; insufficient cycles")⟩)
  else
    some (reStates.map fun x =>
      ⟨igamc (5 / 2) (reChiSq v x / 2), some ("x = " ++ toString x)⟩)

/-- Claim C3: for every sequence of at least `10⁶` bits whose walk has cycle count
`J < max(0.005·√n, 500)`, the Random Excursions kernel succeeds and emits
exactly 8 results in the state order `[-4,-3,-2,-1,+1,+2,+3,+4]`, each with
`p = 0` and a comment recording the insufficient cycles. -/
theorem random_excursions_insufficient_spec (v : BitVec)
    (h1 : 10 ^ 6 ≤ v.len)
    (h2 : (cycleCount v : ℝ) < max (0.005 * Real.sqrt v.len) 500) :
    random_excursions_test v =
      some (reStates.map fun x =>
        ⟨0, some ("x = " ++ toString x ++ "; insufficient cycles")⟩) ∧
    ∀ rs, random_excursions_test v = some rs →
      rs.length = 8 ∧ ∀ r ∈ rs, r.p_value = 0 := by
  have hout : random_excursions_test v =
      some (reStates.map fun x =>
        ⟨0, some ("x = " ++ toString x ++ "; insufficient cycles")⟩) := by
    unfold random_excursions_test
    rw [if_neg (not_lt.mpr h1), if_pos h2]
  refine ⟨hout, fun rs hrs => ?_⟩
  rw [hout] at hrs
  cases hrs
  refine ⟨rfl, fun r hr => ?_⟩
  simp only [reStates, List.map_cons, List.map_nil, List.mem_cons,
    List.not_mem_nil, or_false] at hr
  rcases hr with h | h | h | h | h | h | h | h <;> rw [h]

/-- For the all-zeros sequence the walk is `S_k = −k`. -/
theorem walkS_allfalse (n : ℕ) : ∀ k, walkS ⟨n, fun _ => false⟩ k = -(k : ℤ) := by
  intro k
  induction k with
  | zero => rfl
  | succ k ih =>
    show walkS ⟨n, fun _ => false⟩ k + _ = _
    rw [ih]
    simp [BitVec.bit]
    ring

/-- The all-zeros sequence has exactly one (partial) cycle. -/
theorem cycleCount_allfalse (n : ℕ) (hn : 0 < n) :
    cycleCount ⟨n, fun _ => false⟩ = 1 := by
  have hz : zeroCrossings ⟨n, fun _ => false⟩ = 0 := by
    unfold zeroCrossings
    rw [Finset.card_eq_zero, Finset.filter_eq_empty_iff]
    intro k _
    rw [walkS_allfalse]
    omega
  unfold cycleCount
  rw [hz, walkS_allfalse, if_neg (by show ¬(-(n : ℤ) = 0); omega)]

/-- Claim C3 witness: the all-zeros sequence of `10⁶` bits has `J = 1 < 500`, so
the kernel succeeds with the 8 zero p-values. -/
theorem random_excursions_insufficient_spec_witness :
    random_excursions_test ⟨10 ^ 6, fun _ => false⟩ =
      some (reStates.map fun x =>
        ⟨0, some ("x = " ++ toString x ++ "; insufficient cycles")⟩) := by
  refine (random_excursions_insufficient_spec ⟨10 ^ 6, fun _ => false⟩ le_rfl ?_).1
  rw [show (⟨10 ^ 6, fun _ => false⟩ : BitVec).len = 10 ^ 6 from rfl,
    cycleCount_allfalse (10 ^ 6) (by norm_num)]
  exact lt_of_lt_of_le (by norm_num) (le_max_right _ _)

/-- The runner state: one result slot per `TestKind` (the C `Test` enum
values `0..14`), each either "not run" or a result list (§3). -/
def RunnerState : Type := ℕ → Option (List TestResult)

/-- Modelled from the spec: `test_runner_new` — a runner with every slot
empty. -/
def test_runner_new : RunnerState := fun _ => none

/-- Modelled from the spec: the dispatch operations `test_runner_run_tests` /
`test_runner_run_automatic`, parametric in the kernel outcomes (the kernels
applied to the sequence and the argument bundle; `none` = kernel failed).
List validation (no duplicates, only the 15 valid `TestKind` values) precedes
any execution: an invalid list yields code 1 and an unchanged state.  A valid
list updates every requested slot with its kernel's outcome — a failed
kernel's slot is marked empty — and yields 0 when all kernels succeeded, 2
when at least one failed (§4.4). -/
def test_runner_run_tests (st : RunnerState)
    (outcomes : ℕ → Option (List TestResult)) (ts : List ℕ) : ℕ × RunnerState :=
  if ts.Nodup ∧ ∀ t ∈ ts, t < 15 then
    ((if ∀ t ∈ ts, (outcomes t).isSome then 0 else 2),
      fun t => if t ∈ ts then outcomes t else st t)
  else (1, st)

/-- Modelled from the spec: `test_runner_get_result` — removes and returns
the result slot of the given test; an empty slot yields the error
`TestWasNotRun` (§4.4, `take_result`). -/
def test_runner_get_result (st : RunnerState) (t : ℕ) :
    Except ErrorCode (List TestResult × RunnerState) :=
  match st t with
  | none => Except.error ErrorCode.TestWasNotRun
  | some rs => Except.ok (rs, fun u => if u = t then none else st u)

/-- Claim C5: a dispatch call with a duplicate or invalid `TestKind` in the
requested list returns code 1 with the state unchanged (validation precedes
execution); with a valid list it returns 2 when some kernel fails — the
successful kernels' results remaining retrievable — and 0 when all
succeed. -/
theorem runner_dispatch_spec (st : RunnerState)
    (outcomes : ℕ → Option (List TestResult)) (ts : List ℕ) :
    (¬(ts.Nodup ∧ ∀ t ∈ ts, t < 15) →
      test_runner_run_tests st outcomes ts = (1, st)) ∧
    ((ts.Nodup ∧ ∀ t ∈ ts, t < 15) →
      ((∃ t ∈ ts, outcomes t = none) →
        (test_runner_run_tests st outcomes ts).1 = 2 ∧
        ∀ t ∈ ts, ∀ rs, outcomes t = some rs →
          ∃ st', test_runner_get_result (test_runner_run_tests st outcomes ts).2 t =
            Except.ok (rs, st')) ∧
      ((∀ t ∈ ts, (outcomes t).isSome) →
        (test_runner_run_tests st outcomes ts).1 = 0)) := by
  refine ⟨fun h => ?_, fun h => ⟨fun hfail => ⟨?_, fun t ht rs hrs => ?_⟩, fun hok => ?_⟩⟩
  · unfold test_runner_run_tests
    rw [if_neg h]
  · unfold test_runner_run_tests
    rw [if_pos h, if_neg]
    intro hall
    obtain ⟨t, ht, hnone⟩ := hfail
    have := hall t ht
    rw [hnone] at this
    exact absurd this (by simp)
  · have hslot : (test_runner_run_tests st outcomes ts).2 t = some rs := by
      unfold test_runner_run_tests
      rw [if_pos h]
      simp only [if_pos ht, hrs]
    refine ⟨fun u => if u = t then none
      else (test_runner_run_tests st outcomes ts).2 u, ?_⟩
    unfold test_runner_get_result
    rw [hslot]
  · unfold test_runner_run_tests
    rw [if_pos h, if_pos hok]

/-- Claim C5 witness: with the kernel family succeeding only on test 0, the
duplicate list `[0,0]` yields code 1 and an untouched state; the list `[0,1]`
yields code 2 with test 0's result retrievable; the list `[0]` yields 0. -/
theorem runner_dispatch_spec_witness :
    test_runner_run_tests test_runner_new
      (fun t => if t = 0 then some [⟨0, none⟩] else none) [0, 0] =
      (1, test_runner_new) ∧
    (test_runner_run_tests test_runner_new
      (fun t => if t = 0 then some [⟨0, none⟩] else none) [0, 1]).1 = 2 ∧
    (∃ st', test_runner_get_result
      (test_runner_run_tests test_runner_new
        (fun t => if t = 0 then some [⟨0, none⟩] else none) [0, 1]).2 0 =
      Except.ok ([⟨0, none⟩], st')) ∧
    (test_runner_run_tests test_runner_new
      (fun t => if t = 0 then some [⟨0, none⟩] else none) [0]).1 = 0 := by
  have h2 := (runner_dispatch_spec test_runner_new
    (fun t => if t = 0 then some [⟨0, none⟩] else none) [0, 1]).2
    (by refine ⟨by decide, ?_⟩; intro t ht; fin_cases ht <;> norm_num)
  have hfail := h2.1 ⟨1, by norm_num, rfl⟩
  refine ⟨(runner_dispatch_spec test_runner_new
      (fun t => if t = 0 then some [⟨0, none⟩] else none) [0, 0]).1 (by simp),
    hfail.1, hfail.2 0 (by norm_num) [⟨0, none⟩] rfl, ?_⟩
  refine ((runner_dispatch_spec test_runner_new
    (fun t => if t = 0 then some [⟨0, none⟩] else none) [0]).2
    (by refine ⟨by decide, ?_⟩; intro t ht; fin_cases ht; norm_num)).2 ?_
  intro t ht
  fin_cases ht
  rfl

/-- Claim C6: taking the result of a test whose slot is empty yields the error
`TestWasNotRun`; after a dispatch in which the test's kernel succeeded with a
non-empty list, the first `take_result` returns that list and removes the
slot, so an immediately following second `take_result` yields
`TestWasNotRun`. -/
theorem take_result_spec (st : RunnerState)
    (outcomes : ℕ → Option (List TestResult)) (ts : List ℕ) (t : ℕ) :
    (st t = none →
      test_runner_get_result st t = Except.error ErrorCode.TestWasNotRun) ∧
    ((ts.Nodup ∧ ∀ u ∈ ts, u < 15) → t ∈ ts →
      ∀ rs, outcomes t = some rs → rs ≠ [] →
      ∃ st' : RunnerState,
        test_runner_get_result (test_runner_run_tests st outcomes ts).2 t =
          Except.ok (rs, st') ∧
        test_runner_get_result st' t = Except.error ErrorCode.TestWasNotRun) := by
  constructor
  · intro h
    unfold test_runner_get_result
    rw [h]
  · intro hvalid ht rs hrs _
    refine ⟨fun u => if u = t then none
      else (test_runner_run_tests st outcomes ts).2 u, ?_, ?_⟩
    · have hslot : (test_runner_run_tests st outcomes ts).2 t = some rs := by
        unfold test_runner_run_tests
        rw [if_pos hvalid]
        simp only [if_pos ht, hrs]
      unfold test_runner_get_result
      rw [hslot]
    · simp [test_runner_get_result]

/-- Claim C6 witness: on the empty runner, taking test 5 errors with
`TestWasNotRun`; after dispatching `[0]` with a kernel returning the
singleton list on test 0, the first take of test 0 returns it and the second
take errors. -/
theorem take_result_spec_witness :
    test_runner_get_result test_runner_new 5 =
      Except.error ErrorCode.TestWasNotRun ∧
    ∃ st' : RunnerState,
      test_runner_get_result (test_runner_run_tests test_runner_new
        (fun t => if t = 0 then some [⟨0, none⟩] else none) [0]).2 0 =
        Except.ok ([⟨0, none⟩], st') ∧
      test_runner_get_result st' 0 = Except.error ErrorCode.TestWasNotRun := by
  refine ⟨(take_result_spec test_runner_new
      (fun t => if t = 0 then some [⟨0, none⟩] else none) [0] 5).1 rfl, ?_⟩
  exact (take_result_spec test_runner_new
    (fun t => if t = 0 then some [⟨0, none⟩] else none) [0] 0).2
    (by refine ⟨by decide, ?_⟩; intro u hu; fin_cases hu; norm_num)
    (by norm_num) [⟨0, none⟩] rfl (by simp)

end STS
